import Mathlib

/-!
Verification of the bounding-box geometry reconciliation and per-page merge
logic of the Library_AI_land repository.

Shallow embedding of:
* frontend/composables/usePdfJsOverlay.ts (v4.1):
  normalizeAndClampBBox, clampContinuationBBox, bboxToOverlayRect
* frontend/composables/usePDFHighlight.ts: mergeBboxesByPage
* the Hybrid Search Engine display-score normalization (backend, modelled
  from the spec; see normalizedDisplayScores).

JavaScript numbers are modelled as rationals; a number that may be
non-finite (NaN / Infinity) is modelled by JSNum, whose nonfin
constructor stands for any non-finite value.  Fields that may be absent
or not of number type at runtime are modelled with Option.
-/

namespace LibRag

/-- A JavaScript number: either a finite value (as a rational) or a
non-finite one (NaN / +-Infinity), which Number.isFinite rejects. -/
inductive JSNum where
  | fin (q : ℚ)
  | nonfin
  deriving DecidableEq

/-- Number.isFinite. -/
def JSNum.isFinite : JSNum → Bool
  | .fin _ => true
  | .nonfin => false

/-- The rational value of a finite JSNum (0 for the non-finite case,
which is only read after an isFinite check in the embedded code). -/
def JSNum.q : JSNum → ℚ
  | .fin x => x
  | .nonfin => 0

/-- Wire-format bounding box (type BBox in usePdfJsOverlay.ts).
page / page_index are none when the field is absent or not a usable
number at runtime. -/
structure BBox where
  page : Option ℚ
  page_index : Option ℚ
  x0 : JSNum
  y0 : JSNum
  x1 : JSNum
  y1 : JSNum
  text : Option String
  deriving DecidableEq

/-- A bounding box after normalizeAndClampBBox: all four coordinates are
known finite, the remaining fields are carried over by the object spread. -/
structure BBoxN where
  page : Option ℚ
  page_index : Option ℚ
  x0 : ℚ
  y0 : ℚ
  x1 : ℚ
  y1 : ℚ
  text : Option String
  deriving DecidableEq

/-- Re-inject a normalized box into the wire format (all coordinates finite). -/
def BBoxN.toBBox (b : BBoxN) : BBox :=
  ⟨b.page, b.page_index, .fin b.x0, .fin b.y0, .fin b.x1, .fin b.y1, b.text⟩

/-- Constant CONTINUATION_MAX_H_RATIO of usePdfJsOverlay.ts (0.8). -/
def continuationMaxHRatio : ℚ := 8 / 10

/-- Constant FOOTER_MARGIN_RATIO of usePdfJsOverlay.ts (0.06). -/
def footerMarginRatio : ℚ := 6 / 100

/-- normalizeAndClampBBox of usePdfJsOverlay.ts: reject non-finite
coordinates, sort (swap inverted corners), clamp into the page rectangle,
and reject boxes smaller than 1pt in either dimension. -/
def normalizeAndClampBBox (b : BBox) (vw vh : ℚ) : Option BBoxN :=
  if b.x0.isFinite && b.y0.isFinite && b.x1.isFinite && b.y1.isFinite then
    let nx0 := min b.x0.q b.x1.q
    let nx1 := max b.x0.q b.x1.q
    let ny0 := min b.y0.q b.y1.q
    let ny1 := max b.y0.q b.y1.q
    let cx0 := max 0 (min vw nx0)
    let cx1 := max 0 (min vw nx1)
    let cy0 := max 0 (min vh ny0)
    let cy1 := max 0 (min vh ny1)
    if cx1 - cx0 < 1 ∨ cy1 - cy0 < 1 then none
    else some ⟨b.page, b.page_index, cx0, cy0, cx1, cy1, b.text⟩
  else none

/-- clampContinuationBBox of usePdfJsOverlay.ts (v4.1): for a continuation
box whose height ratio exceeds CONTINUATION_MAX_H_RATIO, clamp y1 to
vh * (1 - FOOTER_MARGIN_RATIO), unless that would empty the box. -/
def clampContinuationBBox (b : BBoxN) (vh : ℚ) (isContinuation : Bool) : BBoxN :=
  if !isContinuation then b
  else if (b.y1 - b.y0) / vh ≤ continuationMaxHRatio then b
  else if vh * (1 - footerMarginRatio) ≤ b.y0 then b
  else { b with y1 := vh * (1 - footerMarginRatio) }

/-- The continuation test of bboxToOverlayRect (line 374):
bboxListLength > 1 && bboxIndexInList > 0. -/
def isContinuationFlag (bboxListLength bboxIndexInList : Int) : Bool :=
  decide (1 < bboxListLength) && decide (0 < bboxIndexInList)

/-- Page-number resolution at the top of bboxToOverlayRect: a positive
page field wins, else a nonnegative page_index is used 0-based, else 0. -/
def resolvePageNumber (b : BBox) : ℚ :=
  match b.page with
  | some p =>
      if 0 < p then p
      else match b.page_index with
        | some k => if 0 ≤ k then k + 1 else 0
        | none => 0
  | none =>
      match b.page_index with
      | some k => if 0 ≤ k then k + 1 else 0
      | none => 0

/-- The iframe-viewport rectangle of a rendered page (DOMRect). -/
structure CanvasRect where
  left : ℚ
  top : ℚ
  width : ℚ
  height : ℚ
  deriving DecidableEq

/-- PdfJsPageInfo of usePdfJsOverlay.ts. -/
structure PdfJsPageInfo where
  pageNumber : ℚ
  canvasRect : Option CanvasRect
  viewportWidth : ℚ
  viewportHeight : ℚ
  scale : ℚ
  deriving DecidableEq

/-- The meta argument of bboxToOverlayRect. -/
structure Meta where
  score : ℚ
  text : String
  articleLabel : String
  resultIndex : Int
  deriving DecidableEq

/-- Highlight level. -/
inductive Level where
  | high
  | medium
  | low
  deriving DecidableEq

/-- Score-to-level bucketing at the end of bboxToOverlayRect. -/
def scoreLevel (score : ℚ) : Level :=
  if 8 / 10 ≤ score then .high
  else if 6 / 10 ≤ score then .medium
  else .low

/-- The bboxCoordOrigin ref of usePdfJsOverlay.ts. -/
inductive CoordOrigin where
  | pymupdfTopLeft
  | pdfBottomLeft
  deriving DecidableEq

/-- OverlayRect of usePdfJsOverlay.ts. -/
structure OverlayRect where
  left : ℚ
  top : ℚ
  width : ℚ
  height : ℚ
  pageNumber : ℚ
  score : ℚ
  text : String
  articleLabel : String
  resultIndex : Int
  level : Level
  deriving DecidableEq

/-- bboxToOverlayRect of usePdfJsOverlay.ts (v4.1).  The pageInfoCache ref
is passed as a lookup function, and the two mutable refs bboxCoordOrigin
and fullPageRatioThreshold as parameters (their defaults in the source are
pdf-bottom-left and 0.99). -/
def bboxToOverlayRect (pageInfoCache : ℚ → Option PdfJsPageInfo)
    (bboxCoordOrigin : CoordOrigin) (fullPageRatioThreshold : ℚ)
    (bbox : BBox) (meta : Meta)
    (bboxListLength : Int := 1) (bboxIndexInList : Int := 0) :
    Option OverlayRect :=
  let pageNumber := resolvePageNumber bbox
  match pageInfoCache pageNumber with
  | none => none
  | some pageInfo =>
    match pageInfo.canvasRect with
    | none => none
    | some cr =>
      let vw := pageInfo.viewportWidth
      let vh := pageInfo.viewportHeight
      match normalizeAndClampBBox bbox vw vh with
      | none => none
      | some nb0 =>
        let nb := clampContinuationBBox nb0 vh
          (isContinuationFlag bboxListLength bboxIndexInList)
        let wRatio := (nb.x1 - nb.x0) / vw
        let hRatio := (nb.y1 - nb.y0) / vh
        if fullPageRatioThreshold ≤ wRatio ∧ fullPageRatioThreshold ≤ hRatio then
          none
        else
          let scaleX := cr.width / vw
          let scaleY := cr.height / vh
          let y0 := match bboxCoordOrigin with
            | .pymupdfTopLeft => vh - nb.y1
            | .pdfBottomLeft => nb.y0
          let y1 := match bboxCoordOrigin with
            | .pymupdfTopLeft => vh - nb.y0
            | .pdfBottomLeft => nb.y1
          let localLeft := nb.x0 * scaleX
          let localTop := y0 * scaleY
          let localWidth := (nb.x1 - nb.x0) * scaleX
          let localHeight := (y1 - y0) * scaleY
          some ⟨cr.left + localLeft, cr.top + localTop, localWidth, localHeight,
                pageNumber, meta.score, meta.text, meta.articleLabel,
                meta.resultIndex, scoreLevel meta.score⟩

/-- The normalize-clamp-continuation part of bboxToOverlayRect, as one
pure function on boxes (steps 1 and the v4.1 continuation correction). -/
def renderPipeline (b : BBox) (vw vh : ℚ) (isContinuation : Bool) : Option BBoxN :=
  (normalizeAndClampBBox b vw vh).map
    (fun nb => clampContinuationBBox nb vh isContinuation)

/-- Postcondition of normalizeAndClampBBox: a non-null result carries every
non-coordinate field over unchanged, and its coordinates are sorted, at
least 1pt apart, and inside the page rectangle. -/
lemma normalizeAndClampBBox_post {b : BBox} {vw vh : ℚ} {nb : BBoxN}
    (h : normalizeAndClampBBox b vw vh = some nb) :
    nb.page = b.page ∧ nb.page_index = b.page_index ∧ nb.text = b.text ∧
    0 ≤ nb.x0 ∧ nb.x0 + 1 ≤ nb.x1 ∧ nb.x1 ≤ vw ∧
    0 ≤ nb.y0 ∧ nb.y0 + 1 ≤ nb.y1 ∧ nb.y1 ≤ vh := by
  unfold normalizeAndClampBBox at h
  split at h
  all_goals (try dsimp only at h)
  · split at h
    · exact absurd h (by simp)
    · rename_i hsize
      push_neg at hsize
      obtain ⟨hx, hy⟩ := hsize
      obtain rfl : nb = ⟨b.page, b.page_index,
          max 0 (min vw (min b.x0.q b.x1.q)), max 0 (min vh (min b.y0.q b.y1.q)),
          max 0 (min vw (max b.x0.q b.x1.q)), max 0 (min vh (max b.y0.q b.y1.q)),
          b.text⟩ := by
        cases (Option.some_inj.mp h); rfl
      refine ⟨rfl, rfl, rfl, le_max_left _ _, by linarith, ?_,
        le_max_left _ _, by linarith, ?_⟩
      · have h1 : (1 : ℚ) ≤ max 0 (min vw (max b.x0.q b.x1.q)) := by
          have := le_max_left (0 : ℚ) (min vw (min b.x0.q b.x1.q))
          linarith
        have h2 : (1 : ℚ) ≤ min vw (max b.x0.q b.x1.q) := by
          rcases le_max_iff.mp h1 with h | h
          · linarith
          · exact h
        calc max 0 (min vw (max b.x0.q b.x1.q))
            = min vw (max b.x0.q b.x1.q) := max_eq_right (by linarith)
          _ ≤ vw := min_le_left _ _
      · have h1 : (1 : ℚ) ≤ max 0 (min vh (max b.y0.q b.y1.q)) := by
          have := le_max_left (0 : ℚ) (min vh (min b.y0.q b.y1.q))
          linarith
        have h2 : (1 : ℚ) ≤ min vh (max b.y0.q b.y1.q) := by
          rcases le_max_iff.mp h1 with h | h
          · linarith
          · exact h
        calc max 0 (min vh (max b.y0.q b.y1.q))
            = min vh (max b.y0.q b.y1.q) := max_eq_right (by linarith)
          _ ≤ vh := min_le_left _ _
  · exact absurd h (by simp)

/-- A box already satisfying the normalizer postcondition passes through
normalizeAndClampBBox unchanged. -/
lemma normalizeAndClampBBox_fix (nb : BBoxN) (vw vh : ℚ)
    (h1 : 0 ≤ nb.x0) (h2 : nb.x0 + 1 ≤ nb.x1) (h3 : nb.x1 ≤ vw)
    (h4 : 0 ≤ nb.y0) (h5 : nb.y0 + 1 ≤ nb.y1) (h6 : nb.y1 ≤ vh) :
    normalizeAndClampBBox nb.toBBox vw vh = some nb := by
  obtain ⟨pg, pgi, x0, y0, x1, y1, tx⟩ := nb
  simp only [BBoxN.toBBox] at *
  unfold normalizeAndClampBBox
  simp only [JSNum.isFinite, JSNum.q, Bool.and_self, if_true]
  rw [min_eq_left (by linarith : x0 ≤ x1), max_eq_right (by linarith : x0 ≤ x1),
    min_eq_left (by linarith : y0 ≤ y1), max_eq_right (by linarith : y0 ≤ y1),
    min_eq_right (by linarith : x0 ≤ vw), max_eq_right h1,
    min_eq_right (by linarith : x1 ≤ vw), max_eq_right (by linarith : (0:ℚ) ≤ x1),
    min_eq_right (by linarith : y0 ≤ vh), max_eq_right h4,
    min_eq_right (by linarith : y1 ≤ vh), max_eq_right (by linarith : (0:ℚ) ≤ y1)]
  rw [if_neg (by push_neg; constructor <;> linarith)]

/-- clampContinuationBBox either returns its argument or, when the
continuation conditions all hold, updates only y1 to the footer line. -/
lemma clampContinuationBBox_cases (b : BBoxN) (vh : ℚ) (cont : Bool) :
    clampContinuationBBox b vh cont = b ∨
    (cont = true ∧ continuationMaxHRatio < (b.y1 - b.y0) / vh ∧
      b.y0 < vh * (1 - footerMarginRatio) ∧
      clampContinuationBBox b vh cont = { b with y1 := vh * (1 - footerMarginRatio) }) := by
  unfold clampContinuationBBox
  cases cont with
  | false => simp
  | true =>
    simp only [Bool.not_true, Bool.false_eq_true, if_false]
    split
    · exact Or.inl rfl
    · split
      · exact Or.inl rfl
      · rename_i hr hg
        exact Or.inr ⟨by simp, not_le.mp hr, not_le.mp hg, rfl⟩

/-- A box whose bottom already sits on the footer line is a fixed point of
clampContinuationBBox. -/
lemma clampContinuationBBox_fix (b : BBoxN) (vh : ℚ) (cont : Bool)
    (hy1 : b.y1 = vh * (1 - footerMarginRatio)) :
    clampContinuationBBox b vh cont = b := by
  unfold clampContinuationBBox
  split
  · rfl
  · split
    · rfl
    · split
      · rfl
      · cases b
        simp_all

/-- The normalized page-5 box of the spec scenario (pages 4-5 chunk). -/
def nb5 : BBoxN := ⟨some 5, none, 0, 2, 400, 838, none⟩

/-- The wire-format page-5 box of the spec scenario. -/
def b5 : BBox := ⟨some 5, none, .fin 0, .fin 2, .fin 400, .fin 838, none⟩

/-- C1: a continuation box (second or later entry of a multi-page chunk's
bbox list) whose normalized height exceeds 0.8 of the page height has its
bottom edge clamped to vh * (1 - 0.06) = vh * 0.94 by the render
conversion's continuation correction. -/
theorem continuation_box_bottom_clamped (b : BBox) (vw vh : ℚ) (nb : BBoxN)
    (len idx : Int) (hlen : 1 < len) (hidx : 0 < idx)
    (hnb : normalizeAndClampBBox b vw vh = some nb)
    (hr : continuationMaxHRatio < (nb.y1 - nb.y0) / vh) :
    (clampContinuationBBox nb vh (isContinuationFlag len idx)).y1
      = vh * (1 - footerMarginRatio) := by
  obtain ⟨-, -, -, -, -, -, hy0, hy01, hy1⟩ := normalizeAndClampBBox_post hnb
  have hvh : (1 : ℚ) ≤ vh := by linarith
  have hvpos : (0 : ℚ) < vh := by linarith
  have hr' : continuationMaxHRatio * vh < nb.y1 - nb.y0 :=
    (lt_div_iff₀ hvpos).mp hr
  have hflag : isContinuationFlag len idx = true := by
    simp [isContinuationFlag, hlen, hidx]
  have hguard : nb.y0 < vh * (1 - footerMarginRatio) := by
    norm_num [continuationMaxHRatio] at hr'
    norm_num [footerMarginRatio]
    nlinarith
  unfold clampContinuationBBox
  rw [hflag]
  simp only [Bool.not_true, Bool.false_eq_true, if_false]
  rw [if_neg (not_le.mpr hr), if_neg (not_le.mpr hguard)]

/-- C1 witness: the spec scenario.  The page-5 box (0, 2, 400, 838) of a
chunk spanning pages 4-5, on an 842pt page, is clamped to
y1 = 842 * 0.94 = 791.48. -/
theorem continuation_box_bottom_clamped_witness :
    (clampContinuationBBox nb5 842 (isContinuationFlag 2 1)).y1
        = 842 * (1 - footerMarginRatio) ∧
    (842 : ℚ) * (1 - footerMarginRatio) = 19787 / 25 :=
  ⟨continuation_box_bottom_clamped b5 595 842 nb5 2 1 (by norm_num) (by norm_num)
      (by norm_num [normalizeAndClampBBox, b5, nb5, JSNum.isFinite, JSNum.q,
        min_def, max_def])
      (by norm_num [continuationMaxHRatio, nb5]),
    by norm_num [footerMarginRatio]⟩

/-- C5: every non-null result of the validation/clamping step has sorted
coordinates lying inside the page rectangle: 0 ≤ x0 ≤ x1 ≤ page width and
0 ≤ y0 ≤ y1 ≤ page height. -/
theorem normalized_box_within_page (b : BBox) (vw vh : ℚ) (nb : BBoxN)
    (hnb : normalizeAndClampBBox b vw vh = some nb) :
    0 ≤ nb.x0 ∧ nb.x0 ≤ nb.x1 ∧ nb.x1 ≤ vw ∧
    0 ≤ nb.y0 ∧ nb.y0 ≤ nb.y1 ∧ nb.y1 ≤ vh := by
  obtain ⟨-, -, -, h1, h2, h3, h4, h5, h6⟩ := normalizeAndClampBBox_post hnb
  exact ⟨h1, by linarith, h3, h4, by linarith, h6⟩

/-- C5 witness: an inverted box (corners swapped) on a 595 x 842 page. -/
theorem normalized_box_within_page_witness :
    normalizeAndClampBBox ⟨some 1, none, .fin 10, .fin 800, .fin 5, .fin 2, none⟩ 595 842
      = some ⟨some 1, none, 5, 2, 10, 800, none⟩ ∧
    (0 ≤ (5:ℚ) ∧ (5:ℚ) ≤ 10 ∧ (10:ℚ) ≤ 595 ∧
      0 ≤ (2:ℚ) ∧ (2:ℚ) ≤ 800 ∧ (800:ℚ) ≤ 842) := by
  have he : normalizeAndClampBBox ⟨some 1, none, .fin 10, .fin 800, .fin 5, .fin 2, none⟩ 595 842
      = some ⟨some 1, none, 5, 2, 10, 800, none⟩ := by
    norm_num [normalizeAndClampBBox, JSNum.isFinite, JSNum.q, min_def, max_def]
  exact ⟨he, normalized_box_within_page _ 595 842 _ he⟩

/-- C8: under the normalizer's postcondition (0 ≤ y0, y1 ≤ vh,
y1 - y0 ≥ 1) a height ratio above 0.8 forces the clamp target
vh * 0.94 strictly above y0, so the guard branch returning an emptied box
is unreachable and the clamped box keeps y1 > y0. -/
theorem continuation_clamp_never_empties (nb : BBoxN) (vh : ℚ)
    (h0 : 0 ≤ nb.y0) (h1 : nb.y1 ≤ vh) (h2 : nb.y0 + 1 ≤ nb.y1)
    (hr : continuationMaxHRatio < (nb.y1 - nb.y0) / vh) :
    nb.y0 < vh * (1 - footerMarginRatio) ∧
    nb.y0 < (clampContinuationBBox nb vh true).y1 := by
  have hvh : (1 : ℚ) ≤ vh := by linarith
  have hvpos : (0 : ℚ) < vh := by linarith
  have hr' : continuationMaxHRatio * vh < nb.y1 - nb.y0 :=
    (lt_div_iff₀ hvpos).mp hr
  have hguard : nb.y0 < vh * (1 - footerMarginRatio) := by
    norm_num [continuationMaxHRatio] at hr'
    norm_num [footerMarginRatio]
    nlinarith
  refine ⟨hguard, ?_⟩
  unfold clampContinuationBBox
  simp only [Bool.not_true, Bool.false_eq_true, if_false]
  rw [if_neg (not_le.mpr hr), if_neg (not_le.mpr hguard)]
  exact hguard

/-- C8 witness: the spec scenario box on an 842pt page. -/
theorem continuation_clamp_never_empties_witness :
    (2 : ℚ) < 842 * (1 - footerMarginRatio) ∧
    (2 : ℚ) < (clampContinuationBBox nb5 842 true).y1 := by
  have h := continuation_clamp_never_empties nb5 842 (by norm_num [nb5])
    (by norm_num [nb5]) (by norm_num [nb5])
    (by norm_num [continuationMaxHRatio, nb5])
  simpa [nb5] using h

/-- C9: the continuation correction is frame-limited to y1 - every other
field is preserved - and is the identity when the height ratio is at most
0.8, or when the box is the first entry of its chunk's bbox list or the
list has a single entry. -/
theorem continuation_clamp_frame (nb : BBoxN) (vh : ℚ) (cont : Bool)
    (len idx : Int) :
    ((clampContinuationBBox nb vh cont).page = nb.page ∧
     (clampContinuationBBox nb vh cont).page_index = nb.page_index ∧
     (clampContinuationBBox nb vh cont).x0 = nb.x0 ∧
     (clampContinuationBBox nb vh cont).y0 = nb.y0 ∧
     (clampContinuationBBox nb vh cont).x1 = nb.x1 ∧
     (clampContinuationBBox nb vh cont).text = nb.text) ∧
    ((nb.y1 - nb.y0) / vh ≤ continuationMaxHRatio →
      clampContinuationBBox nb vh cont = nb) ∧
    (idx = 0 ∨ len ≤ 1 →
      clampContinuationBBox nb vh (isContinuationFlag len idx) = nb) := by
  refine ⟨?_, ?_, ?_⟩
  · unfold clampContinuationBBox
    split_ifs <;> simp
  · intro h
    unfold clampContinuationBBox
    cases cont with
    | false => simp
    | true =>
      simp only [Bool.not_true, Bool.false_eq_true, if_false]
      rw [if_pos h]
  · intro h
    have hflag : isContinuationFlag len idx = false := by
      rcases h with h | h <;> simp [isContinuationFlag] <;> omega
    rw [hflag]
    unfold clampContinuationBBox
    simp

/-- C3 counterexample input: a 1pt-wide strip of a degenerate 1pt-tall
page.  The first application clamps y1 to 0.94, the second application
rejects the box as smaller than 1pt, so f(f(b)) = none while f(b)
is non-null. -/
def bTiny : BBox := ⟨some 1, none, .fin 0, .fin 0, .fin 50, .fin 1, none⟩

/-- C3 counterexample: the normalize-clamp-continuation pipeline is not
idempotent as claimed for every input: on a 1pt-tall page a continuation
box is clamped below the 1pt minimum and the second application returns
none. -/
theorem render_pipeline_not_idempotent :
    ¬ ((renderPipeline bTiny 595 1 true).bind
          (fun nb => renderPipeline nb.toBBox 595 1 true)
        = renderPipeline bTiny 595 1 true) := by
  have h1 : renderPipeline bTiny 595 1 true
      = some ⟨some 1, none, 0, 0, 50, 47 / 50, none⟩ := by
    norm_num [renderPipeline, normalizeAndClampBBox, bTiny, JSNum.isFinite,
      JSNum.q, min_def, max_def, clampContinuationBBox, continuationMaxHRatio,
      footerMarginRatio]
  have h2 : renderPipeline (BBoxN.toBBox ⟨some 1, none, 0, 0, 50, 47 / 50, none⟩)
      595 1 true = none := by
    norm_num [renderPipeline, normalizeAndClampBBox, BBoxN.toBBox,
      JSNum.isFinite, JSNum.q, min_def, max_def]
  rw [h1, Option.some_bind, h2]
  simp

/-- C3 amended: the normalize-clamp-continuation pipeline is idempotent
for every non-continuation call, and for continuation calls whenever the
page height is at least 50/37 pt (on shorter degenerate pages the
continuation clamp can shrink a box below the 1pt minimum, and the second
application rejects it). -/
theorem render_pipeline_idempotent (b : BBox) (vw vh : ℚ) (cont : Bool)
    (h : cont = false ∨ 50 / 37 ≤ vh) :
    (renderPipeline b vw vh cont).bind
        (fun nb => renderPipeline nb.toBBox vw vh cont)
      = renderPipeline b vw vh cont := by
  unfold renderPipeline
  cases hn : normalizeAndClampBBox b vw vh with
  | none => simp
  | some nb =>
    simp only [Option.map_some', Option.some_bind]
    obtain ⟨-, -, -, hx0, hx01, hx1, hy0, hy01, hy1⟩ :=
      normalizeAndClampBBox_post hn
    rcases clampContinuationBBox_cases nb vh cont with hcl | ⟨hcont, hr, hg, hcl⟩
    · rw [hcl, normalizeAndClampBBox_fix nb vw vh hx0 hx01 hx1 hy0 hy01 hy1]
      simp [hcl]
    · rw [hcl]
      have hvh : 50 / 37 ≤ vh := by
        rcases h with h | h
        · rw [h] at hcont; exact absurd hcont (by simp)
        · exact h
      have hvpos : (0 : ℚ) < vh := by linarith
      have hr' : continuationMaxHRatio * vh < nb.y1 - nb.y0 :=
        (lt_div_iff₀ hvpos).mp hr
      have hy0' : nb.y0 + 1 ≤ vh * (1 - footerMarginRatio) := by
        norm_num [continuationMaxHRatio] at hr'
        norm_num [footerMarginRatio]
        nlinarith
      have hcle : vh * (1 - footerMarginRatio) ≤ vh := by
        norm_num [footerMarginRatio]
        nlinarith
      rw [normalizeAndClampBBox_fix { nb with y1 := vh * (1 - footerMarginRatio) }
        vw vh hx0 hx01 hx1 hy0 hy0' hcle]
      simp only [Option.map_some', Option.some.injEq]
      exact clampContinuationBBox_fix
        { nb with y1 := vh * (1 - footerMarginRatio) } vh cont rfl

/-- C3 witness: the pipeline is idempotent on the spec scenario box, as a
continuation box of a real (842pt) page. -/
theorem render_pipeline_idempotent_witness :
    (renderPipeline b5 595 842 true).bind
        (fun nb => renderPipeline nb.toBBox 595 842 true)
      = renderPipeline b5 595 842 true :=
  render_pipeline_idempotent b5 595 842 true (Or.inr (by norm_num))

/-- A one-page cache: page 5 is rendered at scale 1 on a 595 x 842 pt
viewport with its canvas at the iframe origin. -/
def demoCache : ℚ → Option PdfJsPageInfo := fun p =>
  if p = 5 then some ⟨5, some ⟨0, 0, 595, 842⟩, 595, 842, 1⟩ else none

/-- A fixed meta argument for concrete evaluations. -/
def demoMeta : Meta := ⟨9 / 10, "t", "a", 0⟩

/-- A wire-format box covering the whole 595 x 842 page 5. -/
def fullBox : BBox := ⟨some 5, none, .fin 0, .fin 0, .fin 595, .fin 842, none⟩

/-- The normalized form of fullBox. -/
def fullNB : BBoxN := ⟨some 5, none, 0, 0, 595, 842, none⟩

/-- C2 counterexample: a continuation box (second of two entries) whose
post-normalization width and height ratios are both 1 ≥ 0.99 is NOT
rejected: the continuation correction runs before the full-page filter and
lowers the height ratio to 0.94, so bboxToOverlayRect returns a rectangle
instead of null. -/
theorem full_page_continuation_not_rejected :
    normalizeAndClampBBox fullBox 595 842 = some fullNB ∧
    (99 / 100 : ℚ) ≤ (fullNB.x1 - fullNB.x0) / 595 ∧
    (99 / 100 : ℚ) ≤ (fullNB.y1 - fullNB.y0) / 842 ∧
    isContinuationFlag 2 1 = true ∧
    bboxToOverlayRect demoCache CoordOrigin.pdfBottomLeft (99 / 100)
        fullBox demoMeta 2 1 ≠ none := by
  refine ⟨?_, by norm_num [fullNB], by norm_num [fullNB], by decide, ?_⟩
  · norm_num [normalizeAndClampBBox, fullBox, fullNB, JSNum.isFinite, JSNum.q,
      min_def, max_def]
  · norm_num [bboxToOverlayRect, resolvePageNumber, demoCache, fullBox,
      demoMeta, normalizeAndClampBBox, clampContinuationBBox,
      isContinuationFlag, continuationMaxHRatio, footerMarginRatio,
      scoreLevel, JSNum.isFinite, JSNum.q, min_def, max_def]
    simp

/-- C2 amended: a box whose width and height ratios, measured at the
full-page filter (after normalization and after the continuation
correction), are both at least the 0.99 threshold is rejected (null), for
every page size and either continuation flag; a continuation box whose
pre-correction ratios are both ≥ 0.99 is instead clamped to a 0.94 height
ratio first and is therefore not rejected. -/
theorem full_page_box_rejected (cache : ℚ → Option PdfJsPageInfo)
    (origin : CoordOrigin) (b : BBox) (meta : Meta) (len idx : Int)
    (pi : PdfJsPageInfo) (cr : CanvasRect) (nb : BBoxN)
    (hpi : cache (resolvePageNumber b) = some pi)
    (hcr : pi.canvasRect = some cr)
    (hnb : normalizeAndClampBBox b pi.viewportWidth pi.viewportHeight = some nb)
    (hw : 99 / 100 ≤
      ((clampContinuationBBox nb pi.viewportHeight (isContinuationFlag len idx)).x1
        - (clampContinuationBBox nb pi.viewportHeight (isContinuationFlag len idx)).x0)
        / pi.viewportWidth)
    (hh : 99 / 100 ≤
      ((clampContinuationBBox nb pi.viewportHeight (isContinuationFlag len idx)).y1
        - (clampContinuationBBox nb pi.viewportHeight (isContinuationFlag len idx)).y0)
        / pi.viewportHeight) :
    bboxToOverlayRect cache origin (99 / 100) b meta len idx = none := by
  unfold bboxToOverlayRect
  dsimp only
  rw [hpi]
  dsimp only
  rw [hcr]
  dsimp only
  rw [hnb]
  dsimp only
  rw [if_pos ⟨hw, hh⟩]

/-- C2 witness (for the amended claim): the full-page box as the only
entry of its list is rejected. -/
theorem full_page_box_rejected_witness :
    bboxToOverlayRect demoCache CoordOrigin.pdfBottomLeft (99 / 100)
        fullBox demoMeta 1 0 = none := by
  refine full_page_box_rejected demoCache CoordOrigin.pdfBottomLeft fullBox
    demoMeta 1 0 ⟨5, some ⟨0, 0, 595, 842⟩, 595, 842, 1⟩ ⟨0, 0, 595, 842⟩ fullNB
    ?_ rfl ?_ ?_ ?_
  · norm_num [demoCache, resolvePageNumber, fullBox]
  · norm_num [normalizeAndClampBBox, fullBox, fullNB, JSNum.isFinite, JSNum.q,
      min_def, max_def]
  · norm_num [clampContinuationBBox, isContinuationFlag, fullNB]
  · norm_num [clampContinuationBBox, isContinuationFlag, fullNB]

/-- C4: a box with a non-finite coordinate, or whose extent after
coordinate-swap and clamping is below 1pt in either dimension on the
resolved page, produces no overlay rectangle (null), never an error or a
degenerate rectangle. -/
theorem invalid_bbox_yields_no_rect (cache : ℚ → Option PdfJsPageInfo)
    (origin : CoordOrigin) (thr : ℚ) (b : BBox) (meta : Meta) (len idx : Int)
    (h : (b.x0.isFinite && b.y0.isFinite && b.x1.isFinite && b.y1.isFinite) = false
      ∨ ∀ pi : PdfJsPageInfo, cache (resolvePageNumber b) = some pi →
          max 0 (min pi.viewportWidth (max b.x0.q b.x1.q))
            - max 0 (min pi.viewportWidth (min b.x0.q b.x1.q)) < 1
          ∨ max 0 (min pi.viewportHeight (max b.y0.q b.y1.q))
            - max 0 (min pi.viewportHeight (min b.y0.q b.y1.q)) < 1) :
    bboxToOverlayRect cache origin thr b meta len idx = none := by
  unfold bboxToOverlayRect
  dsimp only
  cases hpi : cache (resolvePageNumber b) with
  | none => rfl
  | some pi =>
    dsimp only
    cases hcr : pi.canvasRect with
    | none => rfl
    | some cr =>
      dsimp only
      have hnone : normalizeAndClampBBox b pi.viewportWidth pi.viewportHeight
          = none := by
        unfold normalizeAndClampBBox
        rcases h with h | h
        · simp [h]
        · have hsmall := h pi hpi
          split
          · dsimp only
            rw [if_pos (by rcases hsmall with h2 | h2; exact Or.inl h2; exact Or.inr h2)]
          · rfl
      rw [hnone]

/-- C4 witness: a box with a NaN/Infinity x0 yields no rectangle. -/
theorem invalid_bbox_yields_no_rect_witness :
    bboxToOverlayRect demoCache CoordOrigin.pdfBottomLeft (99 / 100)
        ⟨some 5, none, .nonfin, .fin 0, .fin 10, .fin 10, none⟩ demoMeta 1 0
      = none :=
  invalid_bbox_yields_no_rect demoCache CoordOrigin.pdfBottomLeft (99 / 100)
    ⟨some 5, none, .nonfin, .fin 0, .fin 10, .fin 10, none⟩ demoMeta 1 0
    (Or.inl (by simp [JSNum.isFinite]))

/-- C6: when the page field is absent or not positive, a number
page_index = k ≥ 0 resolves the target page as k + 1; when neither field
is usable the page resolves to 0, which the cache never contains, so the
conversion yields no rectangle. -/
theorem page_index_fallback (cache : ℚ → Option PdfJsPageInfo)
    (origin : CoordOrigin) (thr : ℚ) (meta : Meta) (len idx : Int)
    (b : BBox) (k : ℚ)
    (hpage : b.page = none ∨ ∃ p, b.page = some p ∧ p ≤ 0) :
    (b.page_index = some k → 0 ≤ k → resolvePageNumber b = k + 1) ∧
    ((b.page_index = none ∨ ∃ j, b.page_index = some j ∧ j < 0) →
      cache 0 = none →
      bboxToOverlayRect cache origin thr b meta len idx = none) := by
  constructor
  · intro hk hk0
    unfold resolvePageNumber
    rcases hpage with h | ⟨p, hp, hple⟩
    · rw [h, hk]
      simp [hk0]
    · rw [hp, hk]
      simp [not_lt.mpr hple, hk0]
  · intro hidxu hc0
    have hres : resolvePageNumber b = 0 := by
      unfold resolvePageNumber
      rcases hpage with h | ⟨p, hp, hple⟩ <;>
        rcases hidxu with h2 | ⟨j, hj, hjneg⟩ <;>
          simp_all [not_lt.mpr, not_le.mpr]
    unfold bboxToOverlayRect
    dsimp only
    rw [hres, hc0]

/-- C6 witness: page absent with page_index 4 resolves to page 5; page
and page_index both absent yields no rectangle. -/
theorem page_index_fallback_witness :
    resolvePageNumber ⟨none, some 4, .fin 0, .fin 0, .fin 10, .fin 10, none⟩ = 5 ∧
    bboxToOverlayRect (fun _ => none) CoordOrigin.pdfBottomLeft (99 / 100)
        ⟨none, none, .fin 0, .fin 0, .fin 10, .fin 10, none⟩ demoMeta 1 0
      = none := by
  constructor
  · have h := (page_index_fallback (fun _ => none) CoordOrigin.pdfBottomLeft
      (99 / 100) demoMeta 1 0
      ⟨none, some 4, .fin 0, .fin 0, .fin 10, .fin 10, none⟩ 4 (Or.inl rfl)).1
      rfl (by norm_num)
    rw [h]
    norm_num
  · exact (page_index_fallback (fun _ => none) CoordOrigin.pdfBottomLeft
      (99 / 100) demoMeta 1 0
      ⟨none, none, .fin 0, .fin 0, .fin 10, .fin 10, none⟩ 0 (Or.inl rfl)).2
      (Or.inl rfl) rfl

/-- C9 witness: a single-entry list leaves the scenario box untouched. -/
theorem continuation_clamp_frame_witness :
    (clampContinuationBBox nb5 842 true).y0 = nb5.y0 ∧
    clampContinuationBBox nb5 842 (isContinuationFlag 1 0) = nb5 :=
  ⟨(continuation_clamp_frame nb5 842 true 1 0).1.2.2.2.1,
    (continuation_clamp_frame nb5 842 true 1 0).2.2 (Or.inl rfl)⟩

/-! Folded minima and maxima over rational lists, used by the display-score
normalization and the per-page bbox merge. -/

lemma foldl_min_le_init (l : List ℚ) (a : ℚ) : l.foldl min a ≤ a := by
  induction l generalizing a with
  | nil => exact le_refl a
  | cons b l ih => exact le_trans (ih (min a b)) (min_le_left a b)

lemma foldl_min_le_mem (l : List ℚ) (a x : ℚ) (hx : x ∈ l) :
    l.foldl min a ≤ x := by
  induction l generalizing a with
  | nil => cases hx
  | cons b l ih =>
    rcases List.mem_cons.mp hx with rfl | hx
    · exact le_trans (foldl_min_le_init l (min a x)) (min_le_right a x)
    · exact ih (min a b) hx

lemma foldl_min_mem (l : List ℚ) (a : ℚ) :
    l.foldl min a = a ∨ l.foldl min a ∈ l := by
  induction l generalizing a with
  | nil => exact Or.inl rfl
  | cons b l ih =>
    rcases ih (min a b) with h | h
    · rcases min_choice a b with hm | hm
      · exact Or.inl (by rw [List.foldl_cons, h, hm])
      · exact Or.inr (by rw [List.foldl_cons, h, hm]; exact List.mem_cons_self b l)
    · exact Or.inr (List.mem_cons_of_mem b h)

lemma le_foldl_max_init (l : List ℚ) (a : ℚ) : a ≤ l.foldl max a := by
  induction l generalizing a with
  | nil => exact le_refl a
  | cons b l ih => exact le_trans (le_max_left a b) (ih (max a b))

lemma mem_le_foldl_max (l : List ℚ) (a x : ℚ) (hx : x ∈ l) :
    x ≤ l.foldl max a := by
  induction l generalizing a with
  | nil => cases hx
  | cons b l ih =>
    rcases List.mem_cons.mp hx with rfl | hx
    · exact le_trans (le_max_right a x) (le_foldl_max_init l (max a x))
    · exact ih (max a b) hx

lemma foldl_max_mem (l : List ℚ) (a : ℚ) :
    l.foldl max a = a ∨ l.foldl max a ∈ l := by
  induction l generalizing a with
  | nil => exact Or.inl rfl
  | cons b l ih =>
    rcases ih (max a b) with h | h
    · rcases max_choice a b with hm | hm
      · exact Or.inl (by rw [List.foldl_cons, h, hm])
      · exact Or.inr (by rw [List.foldl_cons, h, hm]; exact List.mem_cons_self b l)
    · exact Or.inr (List.mem_cons_of_mem b h)

/-- Modelled from the spec: the Hybrid Search Engine's display-score
normalization.  The backend search engine itself is not among the provided
sources (only its frontend consumers are), so this follows spec section
4.4: normalized_display_score is min-max normalization
(score - min) / (max - min) over the returned result set's scores, or 1.0
for every result of a non-empty set when max == min. -/
def normalizedDisplayScores (scores : List ℚ) : List ℚ :=
  match scores with
  | [] => []
  | s :: rest =>
    let mn := rest.foldl min s
    let mx := rest.foldl max s
    if mx = mn then (s :: rest).map (fun _ => 1)
    else (s :: rest).map (fun x => (x - mn) / (mx - mn))

/-- C7: over a non-empty result set, every normalized display score lies
in [0, 1], and the whole output is the positionwise min-max normalization
of the input scores - the constant 1 when max = min, and
(score - min) / (max - min) otherwise. -/
theorem display_score_minmax (s : ℚ) (rest : List ℚ) (y : ℚ)
    (hy : y ∈ normalizedDisplayScores (s :: rest)) :
    (0 ≤ y ∧ y ≤ 1) ∧
    normalizedDisplayScores (s :: rest)
      = (s :: rest).map (fun x =>
          if rest.foldl max s = rest.foldl min s then 1
          else (x - rest.foldl min s) / (rest.foldl max s - rest.foldl min s)) := by
  have hmap : normalizedDisplayScores (s :: rest)
      = (s :: rest).map (fun x =>
          if rest.foldl max s = rest.foldl min s then 1
          else (x - rest.foldl min s) / (rest.foldl max s - rest.foldl min s)) := by
    unfold normalizedDisplayScores
    dsimp only
    by_cases h : rest.foldl max s = rest.foldl min s
    · simp [h]
    · simp [h]
  refine ⟨?_, hmap⟩
  rw [hmap] at hy
  rcases List.mem_map.mp hy with ⟨x, hxmem, rfl⟩
  by_cases h : rest.foldl max s = rest.foldl min s
  · simp [h]
  · have hxl : rest.foldl min s ≤ x := by
      rcases List.mem_cons.mp hxmem with rfl | hx
      · exact foldl_min_le_init rest x
      · exact foldl_min_le_mem rest s x hx
    have hxu : x ≤ rest.foldl max s := by
      rcases List.mem_cons.mp hxmem with rfl | hx
      · exact le_foldl_max_init rest x
      · exact mem_le_foldl_max rest s x hx
    have hlt : rest.foldl min s < rest.foldl max s :=
      lt_of_le_of_ne (le_trans (foldl_min_le_init rest s) (le_foldl_max_init rest s))
        (fun he => h he.symm)
    have hpos : 0 < rest.foldl max s - rest.foldl min s := by linarith
    simp only [h, if_false]
    constructor
    · exact div_nonneg (by linarith) (le_of_lt hpos)
    · rw [div_le_one hpos]
      linarith

/-- C7 witness: scores [1, 3, 2] normalize to [0, 1, 1/2]; the member 1
is in [0, 1] and the map equality holds. -/
theorem display_score_minmax_witness :
    ((0 : ℚ) ≤ 1 ∧ (1 : ℚ) ≤ 1) ∧
    normalizedDisplayScores (1 :: [3, 2])
      = (1 :: [3, 2]).map (fun x =>
          if [(3 : ℚ), 2].foldl max 1 = [(3 : ℚ), 2].foldl min 1 then 1
          else (x - [(3 : ℚ), 2].foldl min 1)
            / ([(3 : ℚ), 2].foldl max 1 - [(3 : ℚ), 2].foldl min 1)) :=
  display_score_minmax 1 [3, 2] 1
    (by norm_num [normalizedDisplayScores, min_def, max_def])

/-! Per-page bounding-box merge of usePDFHighlight.ts. -/

/-- BboxInfo of usePDFHighlight.ts (bbox stored in Milvus). -/
structure BboxInfo where
  page : ℚ
  x0 : ℚ
  y0 : ℚ
  x1 : ℚ
  y1 : ℚ
  text : String
  deriving DecidableEq

/-- The per-page accumulator entry of mergeBboxesByPage. -/
structure MergedBox where
  x0 : ℚ
  y0 : ℚ
  x1 : ℚ
  y1 : ℚ
  texts : List String
  deriving DecidableEq

/-- The in-place update of an existing page entry in mergeBboxesByPage:
coordinatewise min/max and text accumulation. -/
def mergeOne (e : MergedBox) (b : BboxInfo) : MergedBox :=
  ⟨min e.x0 b.x0, min e.y0 b.y0, max e.x1 b.x1, max e.y1 b.y1,
    e.texts ++ [b.text]⟩

/-- One iteration of the mergeBboxesByPage loop.  The JS Map keyed by page
number is modelled as an insertion-ordered association list with unique
keys; updating the entry found by get() in place corresponds to mapping
over the list, and a fresh set() appends at the end. -/
def insertBox (m : List (ℚ × MergedBox)) (b : BboxInfo) : List (ℚ × MergedBox) :=
  if m.any (fun e => decide (e.1 = b.page)) then
    m.map (fun e => if e.1 = b.page then (e.1, mergeOne e.2 b) else e)
  else m ++ [(b.page, ⟨b.x0, b.y0, b.x1, b.y1, [b.text]⟩)]

/-- mergeBboxesByPage of usePDFHighlight.ts. -/
def mergeBboxesByPage (bboxList : List BboxInfo) : List (ℚ × MergedBox) :=
  bboxList.foldl insertBox []

/-- Map.get on the modelled page map. -/
def lookupPage (m : List (ℚ × MergedBox)) (p : ℚ) : Option MergedBox :=
  (m.find? (fun e => decide (e.1 = p))).map Prod.snd

/-- Accumulator-level view of one merge step at a fixed page. -/
def mergeAccum (o : Option MergedBox) (b : BboxInfo) : Option MergedBox :=
  match o with
  | none => some ⟨b.x0, b.y0, b.x1, b.y1, [b.text]⟩
  | some e => some (mergeOne e b)

lemma find?_append_single (m : List (ℚ × MergedBox)) (x : ℚ × MergedBox)
    (q : ℚ × MergedBox → Bool) :
    (m ++ [x]).find? q = match m.find? q with
      | some e => some e
      | none => if q x then some x else none := by
  induction m with
  | nil =>
    cases hqx : q x <;> simp [List.find?, hqx]
  | cons a m ih =>
    cases hqa : q a <;> simp [List.find?_cons, hqa, ih]

lemma lookupPage_insertBox (m : List (ℚ × MergedBox)) (b : BboxInfo) (p : ℚ) :
    lookupPage (insertBox m b) p
      = if b.page = p then mergeAccum (lookupPage m p) b
        else lookupPage m p := by
  unfold insertBox
  by_cases hany : m.any (fun e => decide (e.1 = b.page)) = true
  · rw [if_pos hany]
    unfold lookupPage
    rw [List.find?_map]
    have hpred : ((fun e : ℚ × MergedBox => decide (e.1 = p)) ∘
        (fun e => if e.1 = b.page then (e.1, mergeOne e.2 b) else e))
        = (fun e : ℚ × MergedBox => decide (e.1 = p)) := by
      funext e
      by_cases he : e.1 = b.page <;> simp [he]
    rw [hpred]
    by_cases hbp : b.page = p
    · rw [if_pos hbp]
      have hsome : (m.find? (fun e => decide (e.1 = p))).isSome := by
        rw [List.find?_isSome]
        obtain ⟨e, hem, he⟩ := List.any_eq_true.mp hany
        exact ⟨e, hem, by simp at he; simp [he, hbp]⟩
      obtain ⟨e0, he0⟩ := Option.isSome_iff_exists.mp hsome
      have hk : e0.1 = p := by
        have := List.find?_some he0
        simpa using this
      rw [he0]
      have : e0.1 = b.page := by rw [hk, hbp]
      simp [this, mergeAccum]
    · rw [if_neg hbp]
      cases he0 : m.find? (fun e => decide (e.1 = p)) with
      | none => simp
      | some e0 =>
        have hk : e0.1 = p := by
          have := List.find?_some he0
          simpa using this
        have hne : ¬ e0.1 = b.page := by
          rw [hk]
          exact fun h => hbp h.symm
        simp [hne]
  · rw [if_neg hany]
    unfold lookupPage
    rw [find?_append_single]
    have hnone : m.find? (fun e => decide (e.1 = b.page)) = none := by
      rw [List.find?_eq_none]
      intro x hx
      by_contra hq
      exact hany (List.any_eq_true.mpr ⟨x, hx, by simpa using hq⟩)
    by_cases hbp : b.page = p
    · have hnone2 : m.find? (fun e => decide (e.1 = p)) = none := by
        rw [← hbp]
        exact hnone
      rw [hnone2]
      simp [hbp, mergeAccum]
    · cases he0 : m.find? (fun e => decide (e.1 = p)) with
      | none => simp [hbp]
      | some e0 => simp [hbp]

lemma lookupPage_foldl (l : List BboxInfo) (acc : List (ℚ × MergedBox)) (p : ℚ) :
    lookupPage (l.foldl insertBox acc) p
      = (l.filter (fun b => decide (b.page = p))).foldl mergeAccum
          (lookupPage acc p) := by
  induction l generalizing acc with
  | nil => rfl
  | cons b l ih =>
    rw [List.foldl_cons, ih, lookupPage_insertBox]
    by_cases hbp : b.page = p
    · simp [List.filter_cons, hbp]
    · simp [List.filter_cons, hbp]

lemma foldl_mergeAccum_some (l : List BboxInfo) (M : MergedBox) :
    l.foldl mergeAccum (some M) = some (l.foldl mergeOne M) := by
  induction l generalizing M with
  | nil => rfl
  | cons b l ih =>
    rw [List.foldl_cons, List.foldl_cons]
    exact ih (mergeOne M b)

lemma foldl_mergeOne_x0 (l : List BboxInfo) (M : MergedBox) :
    (l.foldl mergeOne M).x0 = (l.map BboxInfo.x0).foldl min M.x0 := by
  induction l generalizing M with
  | nil => rfl
  | cons b l ih =>
    rw [List.foldl_cons, List.map_cons, List.foldl_cons]
    exact ih (mergeOne M b)

lemma foldl_mergeOne_y0 (l : List BboxInfo) (M : MergedBox) :
    (l.foldl mergeOne M).y0 = (l.map BboxInfo.y0).foldl min M.y0 := by
  induction l generalizing M with
  | nil => rfl
  | cons b l ih =>
    rw [List.foldl_cons, List.map_cons, List.foldl_cons]
    exact ih (mergeOne M b)

lemma foldl_mergeOne_x1 (l : List BboxInfo) (M : MergedBox) :
    (l.foldl mergeOne M).x1 = (l.map BboxInfo.x1).foldl max M.x1 := by
  induction l generalizing M with
  | nil => rfl
  | cons b l ih =>
    rw [List.foldl_cons, List.map_cons, List.foldl_cons]
    exact ih (mergeOne M b)

lemma foldl_mergeOne_y1 (l : List BboxInfo) (M : MergedBox) :
    (l.foldl mergeOne M).y1 = (l.map BboxInfo.y1).foldl max M.y1 := by
  induction l generalizing M with
  | nil => rfl
  | cons b l ih =>
    rw [List.foldl_cons, List.map_cons, List.foldl_cons]
    exact ih (mergeOne M b)

lemma mergeBboxesByPage_lookup_spec (l : List BboxInfo) (p : ℚ)
    (hocc : ∃ b ∈ l, b.page = p) :
    ∃ m, lookupPage (mergeBboxesByPage l) p = some m ∧
      (∀ b ∈ l, b.page = p →
        m.x0 ≤ b.x0 ∧ m.y0 ≤ b.y0 ∧ b.x1 ≤ m.x1 ∧ b.y1 ≤ m.y1) ∧
      (∃ b ∈ l, b.page = p ∧ m.x0 = b.x0) ∧
      (∃ b ∈ l, b.page = p ∧ m.y0 = b.y0) ∧
      (∃ b ∈ l, b.page = p ∧ m.x1 = b.x1) ∧
      (∃ b ∈ l, b.page = p ∧ m.y1 = b.y1) := by
  have hl : lookupPage (mergeBboxesByPage l) p
      = (l.filter (fun b => decide (b.page = p))).foldl mergeAccum none := by
    unfold mergeBboxesByPage
    exact lookupPage_foldl l [] p
  cases hfl : l.filter (fun b => decide (b.page = p)) with
  | nil =>
    exfalso
    obtain ⟨b, hb, hbp⟩ := hocc
    have hmem : b ∈ l.filter (fun b => decide (b.page = p)) :=
      List.mem_filter.mpr ⟨hb, by simpa using hbp⟩
    rw [hfl] at hmem
    cases hmem
  | cons b0 fl =>
    have heval : lookupPage (mergeBboxesByPage l) p
        = some (fl.foldl mergeOne ⟨b0.x0, b0.y0, b0.x1, b0.y1, [b0.text]⟩) := by
      rw [hl, hfl, List.foldl_cons]
      exact foldl_mergeAccum_some fl _
    have hmemfl : ∀ b, b ∈ b0 :: fl → b ∈ l ∧ b.page = p := by
      intro b hb
      have hmem : b ∈ l.filter (fun b => decide (b.page = p)) := by
        rw [hfl]
        exact hb
      have h2 := List.mem_filter.mp hmem
      exact ⟨h2.1, by simpa using h2.2⟩
    refine ⟨fl.foldl mergeOne ⟨b0.x0, b0.y0, b0.x1, b0.y1, [b0.text]⟩,
      heval, ?_, ?_, ?_, ?_, ?_⟩
    · intro b hb hbp
      have hbfl : b ∈ b0 :: fl := by
        rw [← hfl]
        exact List.mem_filter.mpr ⟨hb, by simpa using hbp⟩
      refine ⟨?_, ?_, ?_, ?_⟩
      · rw [foldl_mergeOne_x0]
        rcases List.mem_cons.mp hbfl with rfl | hbf
        · exact foldl_min_le_init _ _
        · exact foldl_min_le_mem _ _ _ (List.mem_map_of_mem _ hbf)
      · rw [foldl_mergeOne_y0]
        rcases List.mem_cons.mp hbfl with rfl | hbf
        · exact foldl_min_le_init _ _
        · exact foldl_min_le_mem _ _ _ (List.mem_map_of_mem _ hbf)
      · rw [foldl_mergeOne_x1]
        rcases List.mem_cons.mp hbfl with rfl | hbf
        · exact le_foldl_max_init _ _
        · exact mem_le_foldl_max _ _ _ (List.mem_map_of_mem _ hbf)
      · rw [foldl_mergeOne_y1]
        rcases List.mem_cons.mp hbfl with rfl | hbf
        · exact le_foldl_max_init _ _
        · exact mem_le_foldl_max _ _ _ (List.mem_map_of_mem _ hbf)
    · rcases foldl_min_mem (fl.map BboxInfo.x0) b0.x0 with h | h
      · exact ⟨b0, (hmemfl b0 (List.mem_cons_self b0 fl)).1,
          (hmemfl b0 (List.mem_cons_self b0 fl)).2, by rw [foldl_mergeOne_x0, h]⟩
      · obtain ⟨b, hbf, hbx⟩ := List.mem_map.mp h
        exact ⟨b, (hmemfl b (List.mem_cons_of_mem b0 hbf)).1,
          (hmemfl b (List.mem_cons_of_mem b0 hbf)).2,
          by rw [foldl_mergeOne_x0, ← hbx]⟩
    · rcases foldl_min_mem (fl.map BboxInfo.y0) b0.y0 with h | h
      · exact ⟨b0, (hmemfl b0 (List.mem_cons_self b0 fl)).1,
          (hmemfl b0 (List.mem_cons_self b0 fl)).2, by rw [foldl_mergeOne_y0, h]⟩
      · obtain ⟨b, hbf, hbx⟩ := List.mem_map.mp h
        exact ⟨b, (hmemfl b (List.mem_cons_of_mem b0 hbf)).1,
          (hmemfl b (List.mem_cons_of_mem b0 hbf)).2,
          by rw [foldl_mergeOne_y0, ← hbx]⟩
    · rcases foldl_max_mem (fl.map BboxInfo.x1) b0.x1 with h | h
      · exact ⟨b0, (hmemfl b0 (List.mem_cons_self b0 fl)).1,
          (hmemfl b0 (List.mem_cons_self b0 fl)).2, by rw [foldl_mergeOne_x1, h]⟩
      · obtain ⟨b, hbf, hbx⟩ := List.mem_map.mp h
        exact ⟨b, (hmemfl b (List.mem_cons_of_mem b0 hbf)).1,
          (hmemfl b (List.mem_cons_of_mem b0 hbf)).2,
          by rw [foldl_mergeOne_x1, ← hbx]⟩
    · rcases foldl_max_mem (fl.map BboxInfo.y1) b0.y1 with h | h
      · exact ⟨b0, (hmemfl b0 (List.mem_cons_self b0 fl)).1,
          (hmemfl b0 (List.mem_cons_self b0 fl)).2, by rw [foldl_mergeOne_y1, h]⟩
      · obtain ⟨b, hbf, hbx⟩ := List.mem_map.mp h
        exact ⟨b, (hmemfl b (List.mem_cons_of_mem b0 hbf)).1,
          (hmemfl b (List.mem_cons_of_mem b0 hbf)).2,
          by rw [foldl_mergeOne_y1, ← hbx]⟩

/-- C10: for every page p occurring in the input list, the per-page merge
maps p to exactly the coordinatewise union of the boxes with that page -
the merged corner coordinates are bounds attained by input boxes - so the
merged rectangle contains every input box of that page, and the merged
rectangle is independent of the order of the input list. -/
theorem mergeBboxesByPage_union (l : List BboxInfo) (p : ℚ)
    (hocc : ∃ b ∈ l, b.page = p) :
    ∃ m, lookupPage (mergeBboxesByPage l) p = some m ∧
      (∀ b ∈ l, b.page = p →
        m.x0 ≤ b.x0 ∧ m.y0 ≤ b.y0 ∧ b.x1 ≤ m.x1 ∧ b.y1 ≤ m.y1) ∧
      (∃ b ∈ l, b.page = p ∧ m.x0 = b.x0) ∧
      (∃ b ∈ l, b.page = p ∧ m.y0 = b.y0) ∧
      (∃ b ∈ l, b.page = p ∧ m.x1 = b.x1) ∧
      (∃ b ∈ l, b.page = p ∧ m.y1 = b.y1) ∧
      ∀ l2, l.Perm l2 →
        ∃ m2, lookupPage (mergeBboxesByPage l2) p = some m2 ∧
          m2.x0 = m.x0 ∧ m2.y0 = m.y0 ∧ m2.x1 = m.x1 ∧ m2.y1 = m.y1 := by
  obtain ⟨m, hm, hbound, hax0, hay0, hax1, hay1⟩ :=
    mergeBboxesByPage_lookup_spec l p hocc
  refine ⟨m, hm, hbound, hax0, hay0, hax1, hay1, ?_⟩
  intro l2 hperm
  have hocc2 : ∃ b ∈ l2, b.page = p := by
    obtain ⟨b, hb, hbp⟩ := hocc
    exact ⟨b, hperm.mem_iff.mp hb, hbp⟩
  obtain ⟨m2, hm2, hbound2, hbx0, hby0, hbx1, hby1⟩ :=
    mergeBboxesByPage_lookup_spec l2 p hocc2
  refine ⟨m2, hm2, ?_, ?_, ?_, ?_⟩
  · obtain ⟨b, hb, hbp, hval⟩ := hax0
    obtain ⟨b2, hb2, hbp2, hval2⟩ := hbx0
    have h1 := (hbound2 b (hperm.mem_iff.mp hb) hbp).1
    have h2 := (hbound b2 (hperm.mem_iff.mpr hb2) hbp2).1
    exact le_antisymm (by rw [hval]; exact h1) (by rw [hval2]; exact h2)
  · obtain ⟨b, hb, hbp, hval⟩ := hay0
    obtain ⟨b2, hb2, hbp2, hval2⟩ := hby0
    have h1 := (hbound2 b (hperm.mem_iff.mp hb) hbp).2.1
    have h2 := (hbound b2 (hperm.mem_iff.mpr hb2) hbp2).2.1
    exact le_antisymm (by rw [hval]; exact h1) (by rw [hval2]; exact h2)
  · obtain ⟨b, hb, hbp, hval⟩ := hax1
    obtain ⟨b2, hb2, hbp2, hval2⟩ := hbx1
    have h1 := (hbound2 b (hperm.mem_iff.mp hb) hbp).2.2.1
    have h2 := (hbound b2 (hperm.mem_iff.mpr hb2) hbp2).2.2.1
    exact le_antisymm (by rw [hval2]; exact h2) (by rw [hval]; exact h1)
  · obtain ⟨b, hb, hbp, hval⟩ := hay1
    obtain ⟨b2, hb2, hbp2, hval2⟩ := hby1
    have h1 := (hbound2 b (hperm.mem_iff.mp hb) hbp).2.2.2
    have h2 := (hbound b2 (hperm.mem_iff.mpr hb2) hbp2).2.2.2
    exact le_antisymm (by rw [hval2]; exact h2) (by rw [hval]; exact h1)

/-- A two-box list on page 1 for the C10 witness. -/
def demoList : List BboxInfo :=
  [⟨1, 0, 0, 10, 10, "a"⟩, ⟨1, 5, -2, 20, 8, "b"⟩]

/-- C10 witness: the merged map of demoList has an entry for page 1. -/
theorem mergeBboxesByPage_union_witness :
    (lookupPage (mergeBboxesByPage demoList) 1).isSome = true := by
  obtain ⟨m, hm, -⟩ := mergeBboxesByPage_union demoList 1
    ⟨⟨1, 0, 0, 10, 10, "a"⟩, by simp [demoList], rfl⟩
  rw [hm]
  rfl

end LibRag
